import Mathlib

/-!
Verification of the dual-strategy cache-backed repository benchmark.

The program keeps a `UserRepo` holding a backing map `db` (guarded by a
mutex in two of the three file variants), a strategy flag `isCacheSM`, and
two cache structures: a concurrent map `cacheSM` (used when the flag is
true) and a plain map `cacheRWM` guarded by a reader-writer lock (used when
the flag is false).  Reads are read-through (cache first, then db, then
populate the cache), writes are write-through (db first, then cache).

The embedding below is sequential: each operation is a function from the
repository state to a result and a new state.  Machine maps become
`Int → Option User`; the in-memory log buffer becomes a `List String`.
Lock usage, which the sequential state functions cannot see, is embedded
separately as the list of primitive actions each operation performs
(`GetTrace`, `StoreTrace`), parameterised by the file variant, since one
variant lacks the db mutex.
-/

/-- A stored record: a single display-name attribute (Go struct User). -/
structure User where
  Name : String
deriving DecidableEq, Repr

/-- The map type backing the db and both caches (Go map[int]User / sync.Map). -/
def UMap : Type := Int → Option User

/-- The empty map (a freshly made Go map). -/
def UMap.empty : UMap := fun _ => none

/-- Map update (Go m[k] = v / sync.Map Store). -/
def UMap.insert (m : UMap) (k : Int) (v : User) : UMap :=
  fun q => if q = k then some v else m q

/-- Log line printed on a cache hit. -/
def foundInCache : String := "found in cache!"

/-- Log line printed on a cache miss. -/
def notFoundInCache : String := "not found in cache"

/-- Log line printed when the db lookup hits. -/
def foundInDB : String := "found in db!!"

/-- Log line printed when the db lookup misses. -/
def notFoundInDB : String := "not found in db"

/-- Log line printed when the app finishes initialisation. -/
def appIsStarted : String := "app is started!"

/-- The repository state: the sync.Once done flag, the backing db map, the
strategy flag, the two cache maps, and the in-memory log buffer the logger
writes to.  The mutexes themselves carry no sequential state. -/
structure UserRepo where
  oDone : Bool
  db : UMap
  isCacheSM : Bool
  cacheSM : UMap
  cacheRWM : UMap
  log : List String

/-- UserRepo.getFromCache: reads the cache selected by the strategy flag,
logging a hit or miss line; returns the zero User on a miss. -/
def UserRepo.getFromCache (u : UserRepo) (id : Int) : (User × Bool) × UserRepo :=
  if u.isCacheSM then
    match u.cacheSM id with
    | none => ((⟨""⟩, false), { u with log := u.log ++ [notFoundInCache] })
    | some user => ((user, true), { u with log := u.log ++ [foundInCache] })
  else
    match u.cacheRWM id with
    | none => ((⟨""⟩, false), { u with log := u.log ++ [notFoundInCache] })
    | some user => ((user, true), { u with log := u.log ++ [foundInCache] })

/-- UserRepo.storeInCache: writes into the cache selected by the strategy flag. -/
def UserRepo.storeInCache (u : UserRepo) (id : Int) (user : User) : UserRepo :=
  if u.isCacheSM then { u with cacheSM := u.cacheSM.insert id user }
  else { u with cacheRWM := u.cacheRWM.insert id user }

/-- UserRepo.Get: cache lookup first; on a cache hit returns it at once; on a
miss reads the db, and on a db hit populates the cache before returning. -/
def UserRepo.Get (u : UserRepo) (id : Int) : (User × Bool) × UserRepo :=
  match u.getFromCache id with
  | ((v, true), u1) => ((v, true), u1)
  | ((_, false), u1) =>
    match u1.db id with
    | none => ((⟨""⟩, false), { u1 with log := u1.log ++ [notFoundInDB] })
    | some user =>
      let u2 := u1.storeInCache id user
      ((user, true), { u2 with log := u2.log ++ [foundInDB] })

/-- UserRepo.Store: writes the db, then the cache (write-through). -/
def UserRepo.Store (u : UserRepo) (id : Int) (user : User) : UserRepo :=
  UserRepo.storeInCache { u with db := u.db.insert id user } id user

/-- UserRepo.doInit: allocates the db map and the mutex-strategy cache map. -/
def UserRepo.doInit (u : UserRepo) : UserRepo :=
  { u with db := UMap.empty, cacheRWM := UMap.empty }

/-- UserRepo.Init: stores the strategy flag unconditionally, then runs doInit
through the sync.Once guard (only the first call allocates the maps). -/
def UserRepo.Init (u : UserRepo) (isCacheSM : Bool) : UserRepo :=
  let u1 := { u with isCacheSM := isCacheSM }
  if u1.oDone then u1 else { u1.doInit with oDone := true }

/-- The Go zero value of UserRepo (nil maps read as empty). -/
def zeroRepo : UserRepo :=
  { oDone := false, db := UMap.empty, isCacheSM := false,
    cacheSM := UMap.empty, cacheRWM := UMap.empty, log := [] }

/-- A freshly constructed repository under the given strategy flag. -/
def freshRepo (isCacheSM : Bool) : UserRepo := zeroRepo.Init isCacheSM

/-- One repository operation of a sequential history. -/
inductive Op where
  | get (id : Int)
  | store (id : Int) (user : User)
deriving DecidableEq, Repr

/-- Whether an operation is a write of the given key. -/
def Op.writesKey : Op → Int → Bool
  | Op.get _, _ => false
  | Op.store k _, q => k = q

/-- Runs a sequential history of operations, collecting every Get result. -/
def runOps (u : UserRepo) : List Op → List (User × Bool) × UserRepo
  | [] => ([], u)
  | Op.get id :: rest =>
    match u.Get id with
    | (r, u1) =>
      match runOps u1 rest with
      | (rs, u2) => (r :: rs, u2)
  | Op.store id user :: rest => runOps (u.Store id user) rest

/-- The service layer: a pure pass-through holding the repository. -/
structure UserService where
  repo : UserRepo

/-- UserService.Get forwards to the repository unchanged. -/
def UserService.Get (s : UserService) (id : Int) : (User × Bool) × UserService :=
  match s.repo.Get id with
  | (r, u1) => (r, ⟨u1⟩)

/-- UserService.Store forwards to the repository unchanged. -/
def UserService.Store (s : UserService) (id : Int) (user : User) : UserService :=
  ⟨s.repo.Store id user⟩

/-- The server layer: a pure pass-through holding the service. -/
structure UserServer where
  service : UserService

/-- UserServer.Get forwards to the service unchanged. -/
def UserServer.Get (s : UserServer) (id : Int) : (User × Bool) × UserServer :=
  match s.service.Get id with
  | (r, s1) => (r, ⟨s1⟩)

/-- UserServer.Store forwards to the service unchanged. -/
def UserServer.Store (s : UserServer) (id : Int) (user : User) : UserServer :=
  ⟨s.service.Store id user⟩

/-- The application: the sync.Once done flag, the strategy flag, the wired
facade stack, and nothing else the claims observe (the log buffer lives in
the repository state). -/
structure App where
  oDone : Bool
  isCacheSM : Bool
  UserS : UserServer

/-- App.doInit: builds a fresh repository under the stored strategy flag,
wires the service and server around it, and logs the startup line. -/
def App.doInit (a : App) : App :=
  let u := zeroRepo.Init a.isCacheSM
  { a with UserS := ⟨⟨{ u with log := u.log ++ [appIsStarted] }⟩⟩ }

/-- App.Init: stores the strategy flag, then runs doInit through sync.Once. -/
def App.Init (a : App) (isCacheSM : Bool) : App :=
  let a1 := { a with isCacheSM := isCacheSM }
  if a1.oDone then a1 else { a1.doInit with oDone := true }

/-- The Go zero value of App. -/
def zeroApp : App :=
  { oDone := false, isCacheSM := false, UserS := ⟨⟨zeroRepo⟩⟩ }

/-- CreateApp: a brand-new application under the given strategy flag. -/
def CreateApp (isCacheSM : Bool) : App := zeroApp.Init isCacheSM

/-- The repository an application's facade stack wraps. -/
def App.repo (a : App) : UserRepo := a.UserS.service.repo

/-- A primitive action of one repository operation, as executed by the code:
lock transitions of the db mutex and of the cache reader-writer lock, and
the individual map accesses. -/
inductive Act where
  | dbLock
  | dbUnlock
  | rwLockR
  | rwUnlockR
  | rwLockW
  | rwUnlockW
  | dbRead (id : Int)
  | dbWrite (id : Int)
  | cacheRead (id : Int)
  | cacheWrite (id : Int)
deriving DecidableEq, Repr

/-- The three file variants of the program. -/
inductive Variant where
  | mainV
  | part000
  | part001
deriving DecidableEq, Repr

/-- Whether the variant declares the dbMutex field: main.go and part_001 do,
part_000 does not (its db accesses are bare). -/
def Variant.hasDbMutex : Variant → Bool
  | Variant.mainV => true
  | Variant.part000 => false
  | Variant.part001 => true

/-- Actions of the db lookup inside Get: locked in the mutex variants,
a bare map read in part_000. -/
def dbReadActions (v : Variant) (id : Int) : List Act :=
  if v.hasDbMutex then [Act.dbLock, Act.dbRead id, Act.dbUnlock]
  else [Act.dbRead id]

/-- Actions of the db write inside Store: locked in the mutex variants,
a bare map write in part_000. -/
def dbWriteActions (v : Variant) (id : Int) : List Act :=
  if v.hasDbMutex then [Act.dbLock, Act.dbWrite id, Act.dbUnlock]
  else [Act.dbWrite id]

/-- Actions of getFromCache: a bare concurrent-map read under the sync.Map
strategy, a read inside the shared lock under the RWMutex strategy. -/
def getFromCacheActions (u : UserRepo) (id : Int) : List Act :=
  if u.isCacheSM then [Act.cacheRead id]
  else [Act.rwLockR, Act.cacheRead id, Act.rwUnlockR]

/-- Actions of storeInCache: a bare concurrent-map write under the sync.Map
strategy, a write inside the exclusive lock under the RWMutex strategy. -/
def storeInCacheActions (u : UserRepo) (id : Int) : List Act :=
  if u.isCacheSM then [Act.cacheWrite id]
  else [Act.rwLockW, Act.cacheWrite id, Act.rwUnlockW]

/-- The action sequence UserRepo.Get performs from state u in the given
variant: the cache lookup, then, only on a cache miss, the db lookup and,
only on a db hit, the cache population. -/
def GetTrace (v : Variant) (u : UserRepo) (id : Int) : List Act :=
  getFromCacheActions u id ++
    if (u.getFromCache id).1.2 then []
    else
      dbReadActions v id ++
        match u.db id with
        | none => []
        | some _ => storeInCacheActions u id

/-- The action sequence UserRepo.Store performs from state u in the given
variant: the db write, then the cache write. -/
def StoreTrace (v : Variant) (u : UserRepo) (id : Int) : List Act :=
  dbWriteActions v id ++ storeInCacheActions u id

/-- Whether an action reads or writes the backing db map. -/
def Act.isDbAccess : Act → Bool
  | Act.dbRead _ => true
  | Act.dbWrite _ => true
  | _ => false

/-- Whether an action writes the backing db map. -/
def Act.isDbWrite : Act → Bool
  | Act.dbWrite _ => true
  | _ => false

/-- Whether an action writes a cache map. -/
def Act.isCacheWrite : Act → Bool
  | Act.cacheWrite _ => true
  | _ => false

/-- Scans a trace with the given initial db-mutex ownership and checks that
every db access happens while the mutex is held. -/
def dbGuardedFrom : Bool → List Act → Bool
  | _, [] => true
  | _, Act.dbLock :: rest => dbGuardedFrom true rest
  | _, Act.dbUnlock :: rest => dbGuardedFrom false rest
  | held, Act.dbRead _ :: rest => held && dbGuardedFrom held rest
  | held, Act.dbWrite _ :: rest => held && dbGuardedFrom held rest
  | held, _ :: rest => dbGuardedFrom held rest

/-- Every db access of the trace is inside a db-mutex critical section. -/
def dbGuarded (t : List Act) : Bool := dbGuardedFrom false t

/-- Whether the db mutex is still held after the trace, starting from the
given ownership. -/
def dbHeldAfter : Bool → List Act → Bool
  | held, [] => held
  | _, Act.dbLock :: rest => dbHeldAfter true rest
  | _, Act.dbUnlock :: rest => dbHeldAfter false rest
  | held, _ :: rest => dbHeldAfter held rest

/-- The operation sequence one worker with quota Q issues against its fixed
key id (the inner loop of RunScenario and of the Scenario functions): the
j-th operation is a read when j divided by Q is below the read ratio,
otherwise a write of a record named after the operation index.  The float64
arithmetic of the source is read as exact rational arithmetic; every ratio
literal the program uses is a decimal fraction taken at face value. -/
def workerOps (Q : Nat) (readRatio : ℚ) (id : Int) : List Op :=
  (List.range Q).map (fun (j : Nat) =>
    if (j : ℚ) / (Q : ℚ) < readRatio then Op.get id
    else Op.store id ⟨"User-" ++ toString j⟩)

/-- Whether an operation is a read. -/
def Op.isRead : Op → Bool
  | Op.get _ => true
  | Op.store _ _ => false

/-- The read/write shape of one worker's operation sequence. -/
def workerReadFlags (Q : Nat) (readRatio : ℚ) (id : Int) : List Bool :=
  (workerOps Q readRatio id).map Op.isRead

/-- A workload shape tier (Go struct Scale). -/
structure Scale where
  name : String
  totalOps : Nat
  concurrency : Nat
  readRatio : ℚ
  writeRatio : ℚ

/-- The small workload tier. -/
def smallScale : Scale := ⟨"small", 10000, 50, 9/10, 9/10⟩

/-- The medium workload tier. -/
def mediumScale : Scale := ⟨"medium", 100000, 200, 9/10, 9/10⟩

/-- The large workload tier. -/
def largeScale : Scale := ⟨"large", 10000000, 5000, 1/2, 1/2⟩

/-- BenchmarkScenario from main.go, with wall-clock time as an oracle: dur i
is the elapsed nanoseconds RunScenario takes on iteration i.  The result
lists the application constructed by each of the 10 iterations, and the one
line printed at the end, whose duration is the total divided by 10
(time.Duration division truncates, as Nat division does). -/
def BenchmarkScenario (name : String) (isCacheSM : Bool) (scale : Scale)
    (dur : Nat → Nat) (render : Nat → String) : List App × String :=
  ((List.range 10).map (fun _ => CreateApp isCacheSM),
   name ++ " (" ++ scale.name ++ ") average time over 10 runs: " ++
     render (((List.range 10).map dur).sum / 10))

/-- runScenario from the part_001 variant: runs the scenario thunk 10 times
(each thunk invocation builds its own fresh application and runs the load),
then prints the average.  dur i is iteration i's elapsed nanoseconds; the
result lists the applications built, the printed line, and the returned
average. -/
def runScenario (scenario : Unit → App) (name : String)
    (dur : Nat → Nat) (render : Nat → String) : List App × String × Nat :=
  ((List.range 10).map (fun _ => scenario ()),
   name ++ " average time over " ++ toString (10 : Nat) ++ " runs: " ++
     render (((List.range 10).map dur).sum / 10),
   ((List.range 10).map dur).sum / 10)

/-- Modelled from the spec: the report-line form the spec states, with the
scenario name, the run count and the rendered duration filled in. -/
def specReportLine (sname n durStr : String) : String :=
  sname ++ " average time over " ++ n ++ " runs: " ++ durStr

/-- The cache entry the active strategy holds for a key. -/
def UserRepo.cacheLookup (u : UserRepo) (id : Int) : Option User :=
  if u.isCacheSM then u.cacheSM id else u.cacheRWM id

/-- Observational alignment of the two strategies: the first repository runs
the sync.Map strategy, the second the RWMutex strategy, their dbs agree, and
the active cache of one equals the active cache of the other. -/
def obsEquiv (a b : UserRepo) : Prop :=
  a.isCacheSM = true ∧ b.isCacheSM = false ∧ a.cacheSM = b.cacheRWM ∧ a.db = b.db

/-- Every entry of either cache map is also in the db with the same value. -/
def cacheSubsetDB (u : UserRepo) : Prop :=
  (∀ k v, u.cacheSM k = some v → u.db k = some v) ∧
  (∀ k v, u.cacheRWM k = some v → u.db k = some v)

/-- A key that is absent from the db and from both caches. -/
def keyAbsent (u : UserRepo) (q : Int) : Prop :=
  u.db q = none ∧ u.cacheSM q = none ∧ u.cacheRWM q = none

/-- The cache of the strategy not selected by the flag is empty. -/
def inactiveCacheEmpty (u : UserRepo) : Prop :=
  (u.isCacheSM = true → ∀ k, u.cacheRWM k = none) ∧
  (u.isCacheSM = false → ∀ k, u.cacheSM k = none)

lemma getFromCache_spec (u : UserRepo) (id : Int) :
    (u.getFromCache id).1 =
        (match u.cacheLookup id with
          | some v => (v, true)
          | none => (⟨""⟩, false)) ∧
      (u.getFromCache id).2.db = u.db ∧
      (u.getFromCache id).2.isCacheSM = u.isCacheSM ∧
      (u.getFromCache id).2.cacheSM = u.cacheSM ∧
      (u.getFromCache id).2.cacheRWM = u.cacheRWM := by
  unfold UserRepo.getFromCache UserRepo.cacheLookup
  by_cases h : u.isCacheSM
  · cases hc : u.cacheSM id <;> simp [h, hc]
  · cases hc : u.cacheRWM id <;> simp [h, hc]

lemma storeInCache_spec (u : UserRepo) (id : Int) (user : User) :
    (u.storeInCache id user).db = u.db ∧
      (u.storeInCache id user).isCacheSM = u.isCacheSM ∧
      (u.storeInCache id user).cacheSM =
        (if u.isCacheSM then u.cacheSM.insert id user else u.cacheSM) ∧
      (u.storeInCache id user).cacheRWM =
        (if u.isCacheSM then u.cacheRWM else u.cacheRWM.insert id user) := by
  unfold UserRepo.storeInCache
  by_cases h : u.isCacheSM <;> simp [h]

lemma Get_hit (u : UserRepo) (id : Int) (v : User) (h : u.cacheLookup id = some v) :
    (u.Get id).1 = (v, true) ∧
      (u.Get id).2.db = u.db ∧
      (u.Get id).2.isCacheSM = u.isCacheSM ∧
      (u.Get id).2.cacheSM = u.cacheSM ∧
      (u.Get id).2.cacheRWM = u.cacheRWM := by
  have hs := getFromCache_spec u id
  rw [h] at hs
  unfold UserRepo.Get
  cases hg : u.getFromCache id with
  | mk rv u1 =>
    rw [hg] at hs
    obtain ⟨h1, h2, h3, h4, h5⟩ := hs
    simp at h1
    cases rv with
    | mk rv1 rv2 =>
      simp at h1 h2 h3 h4 h5
      rcases h1 with ⟨hv, hb⟩
      subst hv hb
      simp [h2, h3, h4, h5]

lemma Get_missNone (u : UserRepo) (id : Int) (h : u.cacheLookup id = none)
    (hd : u.db id = none) :
    (u.Get id).1 = (⟨""⟩, false) ∧
      (u.Get id).2.db = u.db ∧
      (u.Get id).2.isCacheSM = u.isCacheSM ∧
      (u.Get id).2.cacheSM = u.cacheSM ∧
      (u.Get id).2.cacheRWM = u.cacheRWM := by
  have hs := getFromCache_spec u id
  rw [h] at hs
  unfold UserRepo.Get
  cases hg : u.getFromCache id with
  | mk rv u1 =>
    rw [hg] at hs
    obtain ⟨h1, h2, h3, h4, h5⟩ := hs
    cases rv with
    | mk rv1 rv2 =>
      simp at h1 h2 h3 h4 h5
      rcases h1 with ⟨hv, hb⟩
      subst hv hb
      simp [h2, h3, h4, h5, hd]

lemma Get_missSome (u : UserRepo) (id : Int) (v : User) (h : u.cacheLookup id = none)
    (hd : u.db id = some v) :
    (u.Get id).1 = (v, true) ∧
      (u.Get id).2.db = u.db ∧
      (u.Get id).2.isCacheSM = u.isCacheSM ∧
      (u.Get id).2.cacheSM =
        (if u.isCacheSM then u.cacheSM.insert id v else u.cacheSM) ∧
      (u.Get id).2.cacheRWM =
        (if u.isCacheSM then u.cacheRWM else u.cacheRWM.insert id v) := by
  have hs := getFromCache_spec u id
  rw [h] at hs
  unfold UserRepo.Get
  cases hg : u.getFromCache id with
  | mk rv u1 =>
    rw [hg] at hs
    obtain ⟨h1, h2, h3, h4, h5⟩ := hs
    cases rv with
    | mk rv1 rv2 =>
      simp at h1 h2 h3 h4 h5
      rcases h1 with ⟨hv, hb⟩
      subst hv hb
      have hsc := storeInCache_spec u1 id v
      obtain ⟨s1, s2, s3, s4⟩ := hsc
      simp [s1, s2, s3, s4, h2, h3, h4, h5, hd]

lemma Store_spec (u : UserRepo) (id : Int) (user : User) :
    (u.Store id user).db = u.db.insert id user ∧
      (u.Store id user).isCacheSM = u.isCacheSM ∧
      (u.Store id user).cacheSM =
        (if u.isCacheSM then u.cacheSM.insert id user else u.cacheSM) ∧
      (u.Store id user).cacheRWM =
        (if u.isCacheSM then u.cacheRWM else u.cacheRWM.insert id user) := by
  unfold UserRepo.Store
  have hsc := storeInCache_spec { u with db := u.db.insert id user } id user
  simpa using hsc

lemma cacheLookup_Store (u : UserRepo) (id : Int) (user : User) :
    ((u.Store id user).cacheLookup id) = some user := by
  obtain ⟨s1, s2, s3, s4⟩ := Store_spec u id user
  unfold UserRepo.cacheLookup
  rw [s2, s3, s4]
  by_cases h : u.isCacheSM <;> simp [h, UMap.insert]

lemma UMap.insert_self (m : UMap) (k : Int) (v : User) : m.insert k v k = some v := by
  simp [UMap.insert]

lemma UMap.insert_other (m : UMap) (k : Int) (v : User) (q : Int) (h : q ≠ k) :
    m.insert k v q = m q := by
  simp [UMap.insert, h]

lemma runOps_cons_get (u : UserRepo) (id : Int) (rest : List Op) :
    runOps u (Op.get id :: rest) =
      ((u.Get id).1 :: (runOps (u.Get id).2 rest).1, (runOps (u.Get id).2 rest).2) := rfl

lemma runOps_cons_store (u : UserRepo) (id : Int) (user : User) (rest : List Op) :
    runOps u (Op.store id user :: rest) = runOps (u.Store id user) rest := rfl

lemma isCacheSM_Get (u : UserRepo) (id : Int) : (u.Get id).2.isCacheSM = u.isCacheSM := by
  cases hcl : u.cacheLookup id with
  | some v => exact (Get_hit u id v hcl).2.2.1
  | none =>
    cases hd : u.db id with
    | some v => exact (Get_missSome u id v hcl hd).2.2.1
    | none => exact (Get_missNone u id hcl hd).2.2.1

lemma keyAbsent_Get (u : UserRepo) (q id : Int) (h : keyAbsent u q) :
    keyAbsent (u.Get id).2 q := by
  obtain ⟨hdb, hsm, hrw⟩ := h
  cases hcl : u.cacheLookup id with
  | some v =>
    obtain ⟨_, g2, _, g4, g5⟩ := Get_hit u id v hcl
    exact ⟨g2 ▸ hdb, g4 ▸ hsm, g5 ▸ hrw⟩
  | none =>
    cases hd : u.db id with
    | none =>
      obtain ⟨_, g2, _, g4, g5⟩ := Get_missNone u id hcl hd
      exact ⟨g2 ▸ hdb, g4 ▸ hsm, g5 ▸ hrw⟩
    | some v =>
      obtain ⟨_, g2, _, g4, g5⟩ := Get_missSome u id v hcl hd
      have hne : q ≠ id := by
        intro he
        rw [he] at hdb
        rw [hdb] at hd
        exact Option.noConfusion hd
      refine ⟨g2 ▸ hdb, ?_, ?_⟩
      · rw [g4]
        by_cases hf : u.isCacheSM <;> simp [hf, UMap.insert, hne, hsm]
      · rw [g5]
        by_cases hf : u.isCacheSM <;> simp [hf, UMap.insert, hne, hrw]

lemma keyAbsent_Store (u : UserRepo) (q id : Int) (user : User) (hne : id ≠ q)
    (h : keyAbsent u q) : keyAbsent (u.Store id user) q := by
  obtain ⟨hdb, hsm, hrw⟩ := h
  obtain ⟨s1, s2, s3, s4⟩ := Store_spec u id user
  have hne' : q ≠ id := fun he => hne he.symm
  refine ⟨?_, ?_, ?_⟩
  · rw [s1]; simp [UMap.insert, hne', hdb]
  · rw [s3]; by_cases hf : u.isCacheSM <;> simp [hf, UMap.insert, hne', hsm]
  · rw [s4]; by_cases hf : u.isCacheSM <;> simp [hf, UMap.insert, hne', hrw]

lemma keyAbsent_runOps (u : UserRepo) (q : Int) (ops : List Op)
    (h : keyAbsent u q) (hops : ops.all (fun op => !(op.writesKey q)) = true) :
    keyAbsent (runOps u ops).2 q := by
  induction ops generalizing u with
  | nil => exact h
  | cons op rest ih =>
    simp only [List.all_cons, Bool.and_eq_true] at hops
    cases op with
    | get id =>
      rw [runOps_cons_get]
      exact ih (u.Get id).2 (keyAbsent_Get u q id h) hops.2
    | store id user =>
      rw [runOps_cons_store]
      have hne : id ≠ q := by
        have := hops.1
        simp [Op.writesKey] at this
        exact this
      exact ih (u.Store id user) (keyAbsent_Store u q id user hne h) hops.2

lemma keyAbsent_fresh (b : Bool) (q : Int) : keyAbsent (freshRepo b) q := by
  refine ⟨rfl, rfl, rfl⟩

lemma keyAbsent_cacheLookup (u : UserRepo) (q : Int) (h : keyAbsent u q) :
    u.cacheLookup q = none := by
  obtain ⟨_, hsm, hrw⟩ := h
  unfold UserRepo.cacheLookup
  by_cases hf : u.isCacheSM <;> simp [hf, hsm, hrw]

/-- C4: for every key, a Get on a repository built fresh under either
strategy, after any sequence of operations none of which stored that key,
reports found = false; absence is a normal boolean outcome, and Get and
Store are total functions of the state with no error result (visible in
their types). -/
theorem c4_miss_semantics (b : Bool) (q : Int) (ops : List Op)
    (hops : ops.all (fun op => !(op.writesKey q)) = true) :
    (((runOps (freshRepo b) ops).2).Get q).1.2 = false := by
  have habs := keyAbsent_runOps (freshRepo b) q ops (keyAbsent_fresh b q) hops
  have hcl := keyAbsent_cacheLookup _ q habs
  have hdb := habs.1
  have := Get_missNone ((runOps (freshRepo b) ops).2) q hcl hdb
  rw [this.1]

/-- Witness for C4 at a concrete history that never writes key 0. -/
theorem c4_witness :
    ([Op.store 1 ⟨"x"⟩, Op.get 1].all (fun op => !(op.writesKey 0)) = true) ∧
      (((runOps (freshRepo true) [Op.store 1 ⟨"x"⟩, Op.get 1]).2).Get 0).1.2 = false :=
  ⟨by decide, c4_miss_semantics true 0 [Op.store 1 ⟨"x"⟩, Op.get 1] (by decide)⟩

/-- C9: whenever Get reports found = false, the record it returns is the
zero record with the empty name. -/
theorem c9_zero_on_miss (u : UserRepo) (id : Int) (h : (u.Get id).1.2 = false) :
    (u.Get id).1.1 = ⟨""⟩ := by
  cases hcl : u.cacheLookup id with
  | some v =>
    have := (Get_hit u id v hcl).1
    rw [this] at h
    exact absurd h (by simp)
  | none =>
    cases hd : u.db id with
    | some v =>
      have := (Get_missSome u id v hcl hd).1
      rw [this] at h
      exact absurd h (by simp)
    | none =>
      have := (Get_missNone u id hcl hd).1
      rw [this]

/-- Witness for C9 on the zero repository at key 0. -/
theorem c9_witness : ((zeroRepo.Get 0).1.2 = false) ∧ (zeroRepo.Get 0).1.1 = ⟨""⟩ :=
  ⟨by decide, c9_zero_on_miss zeroRepo 0 (by decide)⟩

lemma getFromCacheActions_noDb (u : UserRepo) (id : Int) :
    (getFromCacheActions u id).all (fun a => !a.isDbAccess) = true := by
  unfold getFromCacheActions
  by_cases h : u.isCacheSM <;> simp [h, Act.isDbAccess]

lemma getFromCache_hit_flag (u : UserRepo) (id : Int) (v : User)
    (h : u.cacheLookup id = some v) : (u.getFromCache id).1.2 = true := by
  have hs := (getFromCache_spec u id).1
  rw [h] at hs
  rw [hs]

/-- C1: Get performs the cache lookup first; on a cache hit it returns the
cached record with found = true and its trace touches the db in no variant;
on a cache miss with a db miss it reports found = false; on a cache miss
with a db hit it returns the db record with found = true and the cache then
holds that record; and in every variant the trace starts with the cache
lookup. -/
theorem c1_read_through (u : UserRepo) (id : Int) :
    (∀ v, u.cacheLookup id = some v →
      (u.Get id).1 = (v, true) ∧
        ∀ variant, (GetTrace variant u id).all (fun a => !a.isDbAccess) = true) ∧
    (u.cacheLookup id = none → u.db id = none → (u.Get id).1.2 = false) ∧
    (∀ v, u.cacheLookup id = none → u.db id = some v →
      (u.Get id).1 = (v, true) ∧ ((u.Get id).2).cacheLookup id = some v) ∧
    (∀ variant, ∃ rest, GetTrace variant u id = getFromCacheActions u id ++ rest) := by
  refine ⟨?_, ?_, ?_, ?_⟩
  · intro v hv
    refine ⟨(Get_hit u id v hv).1, ?_⟩
    intro variant
    unfold GetTrace
    rw [getFromCache_hit_flag u id v hv]
    simpa using getFromCacheActions_noDb u id
  · intro hcl hd
    rw [(Get_missNone u id hcl hd).1]
  · intro v hcl hd
    obtain ⟨g1, _, g3, g4, g5⟩ := Get_missSome u id v hcl hd
    refine ⟨g1, ?_⟩
    unfold UserRepo.cacheLookup
    rw [g3, g4, g5]
    by_cases hf : u.isCacheSM <;> simp [hf, UMap.insert]
  · intro variant
    exact ⟨_, rfl⟩

/-- Witness for C1 on a repository whose cache holds key 5. -/
theorem c1_witness :
    ((freshRepo true).Store 5 ⟨"n"⟩).cacheLookup 5 = some ⟨"n"⟩ ∧
      (((freshRepo true).Store 5 ⟨"n"⟩).Get 5).1 = (⟨"n"⟩, true) ∧
      (GetTrace Variant.mainV ((freshRepo true).Store 5 ⟨"n"⟩) 5).all
        (fun a => !a.isDbAccess) = true :=
  ⟨by decide,
   ((c1_read_through ((freshRepo true).Store 5 ⟨"n"⟩) 5).1 ⟨"n"⟩ (by decide)).1,
   ((c1_read_through ((freshRepo true).Store 5 ⟨"n"⟩) 5).1 ⟨"n"⟩ (by decide)).2 Variant.mainV⟩

/-- C2: from any repository state, Store of a record under a key followed
by Get of that key returns that record with found = true, and in every
variant the Store trace performs its single db write strictly before its
single cache write, both inside the one call. -/
theorem c2_write_then_read (u : UserRepo) (id : Int) (r : User) :
    ((u.Store id r).Get id).1 = (r, true) ∧
      ∀ variant, ∃ pre mid post,
        StoreTrace variant u id =
            pre ++ [Act.dbWrite id] ++ mid ++ [Act.cacheWrite id] ++ post ∧
          (pre ++ mid ++ post).all (fun a => !(a.isDbWrite || a.isCacheWrite)) = true := by
  constructor
  · exact (Get_hit (u.Store id r) id r (cacheLookup_Store u id r)).1
  · intro variant
    cases variant <;> by_cases hf : u.isCacheSM
    · exact ⟨[Act.dbLock], [Act.dbUnlock], [],
        by simp [StoreTrace, dbWriteActions, storeInCacheActions, Variant.hasDbMutex, hf],
        by decide⟩
    · exact ⟨[Act.dbLock], [Act.dbUnlock, Act.rwLockW], [Act.rwUnlockW],
        by simp [StoreTrace, dbWriteActions, storeInCacheActions, Variant.hasDbMutex, hf],
        by decide⟩
    · exact ⟨[], [], [],
        by simp [StoreTrace, dbWriteActions, storeInCacheActions, Variant.hasDbMutex, hf],
        by decide⟩
    · exact ⟨[], [Act.rwLockW], [Act.rwUnlockW],
        by simp [StoreTrace, dbWriteActions, storeInCacheActions, Variant.hasDbMutex, hf],
        by decide⟩
    · exact ⟨[Act.dbLock], [Act.dbUnlock], [],
        by simp [StoreTrace, dbWriteActions, storeInCacheActions, Variant.hasDbMutex, hf],
        by decide⟩
    · exact ⟨[Act.dbLock], [Act.dbUnlock, Act.rwLockW], [Act.rwUnlockW],
        by simp [StoreTrace, dbWriteActions, storeInCacheActions, Variant.hasDbMutex, hf],
        by decide⟩

/-- Witness for C2 at key 3 on a fresh RWMutex-strategy repository. -/
theorem c2_witness : (((freshRepo false).Store 3 ⟨"Ivan"⟩).Get 3).1 = (⟨"Ivan"⟩, true) :=
  (c2_write_then_read (freshRepo false) 3 ⟨"Ivan"⟩).1

lemma obsEquiv_cacheLookup (a b : UserRepo) (h : obsEquiv a b) (id : Int) :
    a.cacheLookup id = b.cacheLookup id := by
  obtain ⟨ha, hb, hc, _⟩ := h
  unfold UserRepo.cacheLookup
  rw [ha, hb, hc]
  simp

lemma obsEquiv_Get (a b : UserRepo) (id : Int) (h : obsEquiv a b) :
    (a.Get id).1 = (b.Get id).1 ∧ obsEquiv (a.Get id).2 (b.Get id).2 := by
  have hcl := obsEquiv_cacheLookup a b h id
  obtain ⟨ha, hb, hc, hd⟩ := h
  cases hv : a.cacheLookup id with
  | some v =>
    have hv' : b.cacheLookup id = some v := by rw [← hcl, hv]
    obtain ⟨p1, p2, p3, p4, p5⟩ := Get_hit a id v hv
    obtain ⟨q1, q2, q3, q4, q5⟩ := Get_hit b id v hv'
    refine ⟨by rw [p1, q1], ?_⟩
    rw [obsEquiv, p3, q3, p4, q5, p2, q2]
    exact ⟨ha, hb, by rw [hc], by rw [hd]⟩
  | none =>
    have hv' : b.cacheLookup id = none := by rw [← hcl, hv]
    cases hdb : a.db id with
    | none =>
      have hdb' : b.db id = none := by rw [← hd, hdb]
      obtain ⟨p1, p2, p3, p4, p5⟩ := Get_missNone a id hv hdb
      obtain ⟨q1, q2, q3, q4, q5⟩ := Get_missNone b id hv' hdb'
      refine ⟨by rw [p1, q1], ?_⟩
      rw [obsEquiv, p3, q3, p4, q5, p2, q2]
      exact ⟨ha, hb, by rw [hc], by rw [hd]⟩
    | some v =>
      have hdb' : b.db id = some v := by rw [← hd, hdb]
      obtain ⟨p1, p2, p3, p4, p5⟩ := Get_missSome a id v hv hdb
      obtain ⟨q1, q2, q3, q4, q5⟩ := Get_missSome b id v hv' hdb'
      refine ⟨by rw [p1, q1], ?_⟩
      rw [obsEquiv, p3, q3, p4, q5, p2, q2]
      rw [ha, hb] at *
      simp at p4 q5 ⊢
      exact ⟨by rw [hc], by rw [hd]⟩

lemma obsEquiv_Store (a b : UserRepo) (id : Int) (user : User) (h : obsEquiv a b) :
    obsEquiv (a.Store id user) (b.Store id user) := by
  obtain ⟨ha, hb, hc, hd⟩ := h
  obtain ⟨p1, p2, p3, p4⟩ := Store_spec a id user
  obtain ⟨q1, q2, q3, q4⟩ := Store_spec b id user
  rw [obsEquiv, p2, q2, p3, q4, p1, q1]
  rw [ha, hb] at *
  simp at p3 q4 ⊢
  exact ⟨by rw [hc], by rw [hd]⟩

lemma obsEquiv_runOps (a b : UserRepo) (ops : List Op) (h : obsEquiv a b) :
    (runOps a ops).1 = (runOps b ops).1 ∧ obsEquiv (runOps a ops).2 (runOps b ops).2 := by
  induction ops generalizing a b with
  | nil => exact ⟨rfl, h⟩
  | cons op rest ih =>
    cases op with
    | get id =>
      rw [runOps_cons_get, runOps_cons_get]
      obtain ⟨h1, h2⟩ := obsEquiv_Get a b id h
      obtain ⟨h3, h4⟩ := ih (a.Get id).2 (b.Get id).2 h2
      exact ⟨by rw [h1, h3], h4⟩
    | store id user =>
      rw [runOps_cons_store, runOps_cons_store]
      exact ih _ _ (obsEquiv_Store a b id user h)

/-- C3: any sequential operation history run from a fresh sync.Map-strategy
repository and from a fresh RWMutex-strategy repository produces identical
observable results: the same found booleans and record values at every
Get. -/
theorem c3_strategy_equiv (ops : List Op) :
    (runOps (freshRepo true) ops).1 = (runOps (freshRepo false) ops).1 :=
  (obsEquiv_runOps (freshRepo true) (freshRepo false) ops ⟨rfl, rfl, rfl, rfl⟩).1

lemma repoInv_Get (u : UserRepo) (id : Int)
    (h : cacheSubsetDB u) : cacheSubsetDB (u.Get id).2 := by
  obtain ⟨hsm, hrw⟩ := h
  cases hcl : u.cacheLookup id with
  | some v =>
    obtain ⟨_, g2, _, g4, g5⟩ := Get_hit u id v hcl
    rw [cacheSubsetDB, g2, g4, g5]
    exact ⟨hsm, hrw⟩
  | none =>
    cases hd : u.db id with
    | none =>
      obtain ⟨_, g2, _, g4, g5⟩ := Get_missNone u id hcl hd
      rw [cacheSubsetDB, g2, g4, g5]
      exact ⟨hsm, hrw⟩
    | some v =>
      obtain ⟨_, g2, _, g4, g5⟩ := Get_missSome u id v hcl hd
      cases hf : u.isCacheSM
      · have g4' : (u.Get id).2.cacheSM = u.cacheSM := by rw [g4, hf]; simp
        have g5' : (u.Get id).2.cacheRWM = u.cacheRWM.insert id v := by rw [g5, hf]; simp
        rw [cacheSubsetDB, g2, g4', g5']
        refine ⟨fun k w hk => hsm k w hk, fun k w hk => ?_⟩
        by_cases hkid : k = id
        · subst hkid
          rw [UMap.insert_self] at hk
          exact hk ▸ hd
        · rw [UMap.insert_other u.cacheRWM id v k hkid] at hk
          exact hrw k w hk
      · have g4' : (u.Get id).2.cacheSM = u.cacheSM.insert id v := by rw [g4, hf]; simp
        have g5' : (u.Get id).2.cacheRWM = u.cacheRWM := by rw [g5, hf]; simp
        rw [cacheSubsetDB, g2, g4', g5']
        refine ⟨fun k w hk => ?_, fun k w hk => hrw k w hk⟩
        by_cases hkid : k = id
        · subst hkid
          rw [UMap.insert_self] at hk
          exact hk ▸ hd
        · rw [UMap.insert_other u.cacheSM id v k hkid] at hk
          exact hsm k w hk

lemma inactive_Get (u : UserRepo) (id : Int) (hin : inactiveCacheEmpty u) :
    inactiveCacheEmpty (u.Get id).2 := by
  obtain ⟨hin1, hin2⟩ := hin
  cases hcl : u.cacheLookup id with
  | some v =>
    obtain ⟨_, _, g3, g4, g5⟩ := Get_hit u id v hcl
    rw [inactiveCacheEmpty, g3, g4, g5]
    exact ⟨hin1, hin2⟩
  | none =>
    cases hd : u.db id with
    | none =>
      obtain ⟨_, _, g3, g4, g5⟩ := Get_missNone u id hcl hd
      rw [inactiveCacheEmpty, g3, g4, g5]
      exact ⟨hin1, hin2⟩
    | some v =>
      obtain ⟨_, _, g3, g4, g5⟩ := Get_missSome u id v hcl hd
      cases hf : u.isCacheSM
      · have g4' : (u.Get id).2.cacheSM = u.cacheSM := by rw [g4, hf]; simp
        have g5' : (u.Get id).2.cacheRWM = u.cacheRWM.insert id v := by rw [g5, hf]; simp
        rw [inactiveCacheEmpty, g3, g4', g5', hf]
        exact ⟨fun hco => Bool.noConfusion hco, fun _ => hin2 hf⟩
      · have g4' : (u.Get id).2.cacheSM = u.cacheSM.insert id v := by rw [g4, hf]; simp
        have g5' : (u.Get id).2.cacheRWM = u.cacheRWM := by rw [g5, hf]; simp
        rw [inactiveCacheEmpty, g3, g4', g5', hf]
        exact ⟨fun _ => hin1 hf, fun hco => Bool.noConfusion hco⟩

lemma inactive_Store (u : UserRepo) (id : Int) (user : User)
    (hin : inactiveCacheEmpty u) : inactiveCacheEmpty (u.Store id user) := by
  obtain ⟨hin1, hin2⟩ := hin
  obtain ⟨_, s2, s3, s4⟩ := Store_spec u id user
  cases hf : u.isCacheSM
  · have s3' : (u.Store id user).cacheSM = u.cacheSM := by rw [s3, hf]; simp
    have s4' : (u.Store id user).cacheRWM = u.cacheRWM.insert id user := by rw [s4, hf]; simp
    rw [inactiveCacheEmpty, s2, s3', s4', hf]
    exact ⟨fun hco => Bool.noConfusion hco, fun _ => hin2 hf⟩
  · have s3' : (u.Store id user).cacheSM = u.cacheSM.insert id user := by rw [s3, hf]; simp
    have s4' : (u.Store id user).cacheRWM = u.cacheRWM := by rw [s4, hf]; simp
    rw [inactiveCacheEmpty, s2, s3', s4', hf]
    exact ⟨fun _ => hin1 hf, fun hco => Bool.noConfusion hco⟩

lemma subset_Store (u : UserRepo) (id : Int) (user : User)
    (h : cacheSubsetDB u) (hin : inactiveCacheEmpty u) :
    cacheSubsetDB (u.Store id user) := by
  obtain ⟨hsm, hrw⟩ := h
  obtain ⟨hin1, hin2⟩ := hin
  obtain ⟨s1, s2, s3, s4⟩ := Store_spec u id user
  cases hf : u.isCacheSM
  · have s3' : (u.Store id user).cacheSM = u.cacheSM := by rw [s3, hf]; simp
    have s4' : (u.Store id user).cacheRWM = u.cacheRWM.insert id user := by rw [s4, hf]; simp
    rw [cacheSubsetDB, s1, s3', s4']
    refine ⟨fun k w hk => ?_, fun k w hk => ?_⟩
    · rw [hin2 hf k] at hk
      exact Option.noConfusion hk
    · by_cases hkid : k = id
      · subst hkid
        rw [UMap.insert_self] at hk
        rw [← hk]
        exact UMap.insert_self _ _ _
      · rw [UMap.insert_other u.cacheRWM id user k hkid] at hk
        rw [UMap.insert_other u.db id user k hkid]
        exact hrw k w hk
  · have s3' : (u.Store id user).cacheSM = u.cacheSM.insert id user := by rw [s3, hf]; simp
    have s4' : (u.Store id user).cacheRWM = u.cacheRWM := by rw [s4, hf]; simp
    rw [cacheSubsetDB, s1, s3', s4']
    refine ⟨fun k w hk => ?_, fun k w hk => ?_⟩
    · by_cases hkid : k = id
      · subst hkid
        rw [UMap.insert_self] at hk
        rw [← hk]
        exact UMap.insert_self _ _ _
      · rw [UMap.insert_other u.cacheSM id user k hkid] at hk
        rw [UMap.insert_other u.db id user k hkid]
        exact hsm k w hk
    · rw [hin1 hf k] at hk
      exact Option.noConfusion hk

lemma repoInv_runOps (u : UserRepo) (ops : List Op)
    (h : cacheSubsetDB u) (hin : inactiveCacheEmpty u) :
    cacheSubsetDB (runOps u ops).2 ∧ inactiveCacheEmpty (runOps u ops).2 := by
  induction ops generalizing u with
  | nil => exact ⟨h, hin⟩
  | cons op rest ih =>
    cases op with
    | get id =>
      rw [runOps_cons_get]
      exact ih (u.Get id).2 (repoInv_Get u id h) (inactive_Get u id hin)
    | store id user =>
      rw [runOps_cons_store]
      exact ih (u.Store id user) (subset_Store u id user h hin) (inactive_Store u id user hin)

/-- C10: after any sequential operation history from a fresh repository,
under either strategy, every key present in either cache map is present in
the db with the same record - the cache stays a subset of the backing
store. -/
theorem c10_cache_subset_db (b : Bool) (ops : List Op) :
    cacheSubsetDB (runOps (freshRepo b) ops).2 :=
  (repoInv_runOps (freshRepo b) ops
      ⟨fun k w hk => Option.noConfusion hk, fun k w hk => Option.noConfusion hk⟩
      ⟨fun _ k => rfl, fun _ k => rfl⟩).1

/-- C5 counterexample: in the part_000 variant the Get trace from a fresh
repository at key 0 does access the db, yet no db access of that trace (nor
of the Store trace) is inside a db-mutex critical section - that variant
has no db mutex at all, so the claim fails as stated for every variant. -/
theorem c5_counterexample :
    (GetTrace Variant.part000 (freshRepo true) 0).any Act.isDbAccess = true ∧
      dbGuarded (GetTrace Variant.part000 (freshRepo true) 0) = false ∧
      dbGuarded (StoreTrace Variant.part000 (freshRepo true) 0) = false := by
  refine ⟨by decide, by decide, by decide⟩

/-- C5 amended: in the two variants that declare the db mutex (main.go and
part_001), every db read and write performed by Get and Store lies inside a
critical section of that single exclusive lock, and the lock is released by
the time the operation returns; the part_000 variant performs its db
accesses with no lock. -/
theorem c5_guarded_db (v : Variant) (hv : v.hasDbMutex = true) (u : UserRepo) (id : Int) :
    dbGuarded (GetTrace v u id) = true ∧
      dbGuarded (StoreTrace v u id) = true ∧
      dbHeldAfter false (GetTrace v u id) = false ∧
      dbHeldAfter false (StoreTrace v u id) = false := by
  cases v with
  | part000 => exact Bool.noConfusion hv
  | mainV =>
    cases hgb : (u.getFromCache id).1.2 <;> cases hdb : u.db id <;>
      by_cases hf : u.isCacheSM <;>
      simp [GetTrace, StoreTrace, dbReadActions, dbWriteActions, getFromCacheActions,
        storeInCacheActions, Variant.hasDbMutex, hgb, hdb, hf, dbGuarded, dbGuardedFrom,
        dbHeldAfter]
  | part001 =>
    cases hgb : (u.getFromCache id).1.2 <;> cases hdb : u.db id <;>
      by_cases hf : u.isCacheSM <;>
      simp [GetTrace, StoreTrace, dbReadActions, dbWriteActions, getFromCacheActions,
        storeInCacheActions, Variant.hasDbMutex, hgb, hdb, hf, dbGuarded, dbGuardedFrom,
        dbHeldAfter]

/-- Witness for C5 amended on the main.go variant at key 0. -/
theorem c5_witness :
    Variant.mainV.hasDbMutex = true ∧
      dbGuarded (GetTrace Variant.mainV (freshRepo true) 0) = true ∧
      dbHeldAfter false (StoreTrace Variant.mainV (freshRepo true) 0) = false :=
  ⟨by decide, (c5_guarded_db Variant.mainV (by decide) (freshRepo true) 0).1,
    (c5_guarded_db Variant.mainV (by decide) (freshRepo true) 0).2.2.2⟩

lemma Init_again (w : UserRepo) (hdone : w.oDone = true) (c : Bool) :
    w.Init c = { w with isCacheSM := c } := by
  unfold UserRepo.Init
  simp [hdone]

/-- C6 counterexample: a repository (or application) initialised with the
flag true and then re-initialised with false holds the flag false, not its
construction-time value - the sync.Once guard protects only the map
allocation, while Init overwrites the flag unconditionally. -/
theorem c6_counterexample :
    (zeroRepo.Init true).isCacheSM = true ∧
      ((zeroRepo.Init true).Init false).isCacheSM = false ∧
      (CreateApp true).isCacheSM = true ∧
      ((CreateApp true).Init false).isCacheSM = false := by
  refine ⟨by decide, by decide, by decide, by decide⟩

/-- C6 amended: every Init call sets the strategy flag to its argument; a
second Init only overwrites the flag (the once-guarded allocation does not
rerun, all other state is kept); and no Get or Store ever changes the flag,
so the flag is constant for the lifetime of an instance unless the
initialization entry point is called again with a different value. -/
theorem c6_flag_lifecycle :
    (∀ (u : UserRepo) (b : Bool), (u.Init b).isCacheSM = b) ∧
      (∀ (u : UserRepo) (b c : Bool), (u.Init b).Init c = { u.Init b with isCacheSM := c }) ∧
      (∀ (u : UserRepo) (ops : List Op), ((runOps u ops).2).isCacheSM = u.isCacheSM) ∧
      (∀ (a : App) (b : Bool), (a.Init b).isCacheSM = b) := by
  refine ⟨?_, ?_, ?_, ?_⟩
  · intro u b
    unfold UserRepo.Init
    by_cases h : u.oDone <;> simp [h, UserRepo.doInit]
  · intro u b c
    have hdone : (u.Init b).oDone = true := by
      unfold UserRepo.Init
      by_cases h : u.oDone <;> simp [h, UserRepo.doInit]
    exact Init_again (u.Init b) hdone c
  · intro u ops
    induction ops generalizing u with
    | nil => rfl
    | cons op rest ih =>
      cases op with
      | get id =>
        rw [runOps_cons_get]
        rw [ih (u.Get id).2, isCacheSM_Get]
      | store id user =>
        rw [runOps_cons_store]
        rw [ih (u.Store id user), (Store_spec u id user).2.1]
  · intro a b
    unfold App.Init
    by_cases h : a.oDone <;> simp [h, App.doInit]

/-- C8: both benchmark drivers run exactly 10 iterations; in the main.go
driver each iteration constructs a fresh application whose repository maps
are all empty, and the single printed line is of the spec form with the
scenario label (the name with its scale tier appended) and the total
elapsed time divided by 10; the part_001 driver likewise builds 10 fresh
applications through its scenario thunk and prints the spec-form line with
the plain scenario name. -/
theorem c8_benchmark_driver (name : String) (b : Bool) (scale : Scale)
    (dur : Nat → Nat) (render : Nat → String) :
    (BenchmarkScenario name b scale dur render).1.length = 10 ∧
      (∀ a ∈ (BenchmarkScenario name b scale dur render).1,
        a = CreateApp b ∧ a.repo.db = UMap.empty ∧ a.repo.cacheSM = UMap.empty ∧
          a.repo.cacheRWM = UMap.empty) ∧
      (BenchmarkScenario name b scale dur render).2 =
        specReportLine (name ++ " (" ++ scale.name ++ ")") "10"
          (render (((List.range 10).map dur).sum / 10)) ∧
      (runScenario (fun _ => CreateApp b) name dur render).1 =
        List.replicate 10 (CreateApp b) ∧
      (runScenario (fun _ => CreateApp b) name dur render).2.1 =
        specReportLine name "10" (render (((List.range 10).map dur).sum / 10)) := by
  refine ⟨?_, ?_, ?_, ?_, ?_⟩
  · simp [BenchmarkScenario]
  · intro a ha
    simp [BenchmarkScenario] at ha
    subst ha
    refine ⟨rfl, ?_, ?_, ?_⟩ <;>
      simp [CreateApp, App.Init, App.doInit, zeroApp, zeroRepo, UserRepo.Init,
        UserRepo.doInit, App.repo]
  · simp [BenchmarkScenario, specReportLine, String.append_assoc]
  · simp [runScenario, List.map_const]
  · have h10 : toString (10 : Nat) = "10" := by decide
    simp [runScenario, specReportLine, String.append_assoc, h10]

/-- Witness for C8 on a concrete scenario name, scale and duration oracle. -/
theorem c8_witness :
    (BenchmarkScenario "x" true smallScale (fun _ => 7) (fun _ => "t")).1.length = 10 ∧
      (BenchmarkScenario "x" true smallScale (fun _ => 7) (fun _ => "t")).2 =
        specReportLine ("x" ++ " (" ++ smallScale.name ++ ")") "10" "t" :=
  ⟨(c8_benchmark_driver "x" true smallScale (fun _ => 7) (fun _ => "t")).1,
    (c8_benchmark_driver "x" true smallScale (fun _ => 7) (fun _ => "t")).2.2.1⟩

lemma range_map_decide_lt (Q r : Nat) :
    (List.range Q).map (fun j => decide (j < r)) =
      List.replicate (min r Q) true ++ List.replicate (Q - r) false := by
  induction Q generalizing r with
  | zero => simp
  | succ Q ih =>
    rw [List.range_succ_eq_map, List.map_cons, List.map_map]
    cases r with
    | zero =>
      have hc : ∀ j ∈ List.range Q,
          ((fun j => decide (j < (0:ℕ))) ∘ Nat.succ) j = (fun j => decide (j < 0)) j := by
        intro j _
        simp
      rw [List.map_congr_left hc, ih 0]
      simp [List.replicate_succ]
    | succ s =>
      have hc : ∀ j ∈ List.range Q,
          ((fun j => decide (j < s + 1)) ∘ Nat.succ) j = (fun j => decide (j < s)) j := by
        intro j _
        simp [Nat.succ_lt_succ_iff]
      rw [List.map_congr_left hc, ih s]
      have hmin : min (s + 1) (Q + 1) = min s Q + 1 := Nat.succ_min_succ s Q
      have hsub : Q + 1 - (s + 1) = Q - s := Nat.succ_sub_succ Q s
      rw [hmin, hsub]
      simp [List.replicate_succ]

lemma isRead_iff (Q j : Nat) (F : ℚ) (hQ : 0 < Q) :
    ((j : ℚ) / (Q : ℚ) < F) ↔ j < (⌈F * (Q : ℚ)⌉).toNat := by
  have hQQ : (0 : ℚ) < (Q : ℚ) := by positivity
  rw [div_lt_iff₀ hQQ, Int.lt_toNat, Int.lt_ceil]
  constructor <;> intro h <;> exact_mod_cast h

/-- C7 amended: for quota Q > 0 and read fraction F at most 1, one worker's
operation sequence under the rule (j divided by Q, compared below F) is
exactly ceil(F * Q) reads followed by Q - ceil(F * Q) writes: all reads
precede all writes, but the read count is the ceiling, not the floor, of
F * Q when F * Q is not an integer. -/
theorem c7_read_write_split (Q : Nat) (F : ℚ) (hQ : 0 < Q) (h1 : F ≤ 1) (id : Int) :
    workerReadFlags Q F id =
      List.replicate ((⌈F * (Q : ℚ)⌉).toNat) true ++
        List.replicate (Q - (⌈F * (Q : ℚ)⌉).toNat) false := by
  have hr : (⌈F * (Q : ℚ)⌉).toNat ≤ Q := by
    have h2 : F * (Q : ℚ) ≤ (Q : ℚ) := by
      calc F * (Q : ℚ) ≤ 1 * (Q : ℚ) := by
            exact mul_le_mul_of_nonneg_right h1 (by positivity)
        _ = (Q : ℚ) := one_mul _
    have h3 : ⌈F * (Q : ℚ)⌉ ≤ (Q : ℤ) := Int.ceil_le.mpr (by push_cast; exact h2)
    omega
  have hstep : workerReadFlags Q F id =
      (List.range Q).map (fun j => decide (j < (⌈F * (Q : ℚ)⌉).toNat)) := by
    unfold workerReadFlags workerOps
    rw [List.map_map]
    apply List.map_congr_left
    intro j hj
    have hop : Op.isRead
        (if (j : ℚ) / (Q : ℚ) < F then Op.get id
          else Op.store id ⟨"User-" ++ toString j⟩) = decide ((j : ℚ) / (Q : ℚ) < F) := by
      by_cases hc : (j : ℚ) / (Q : ℚ) < F <;> simp [hc, Op.isRead]
    simp only [Function.comp_apply]
    rw [hop, decide_eq_decide.mpr (isRead_iff Q j F hQ)]
  rw [hstep, range_map_decide_lt, Nat.min_eq_left hr]

/-- Witness for C7 amended at quota 2 and read fraction one half. -/
theorem c7_split_witness :
    0 < 2 ∧ (1 / 2 : ℚ) ≤ 1 ∧
      workerReadFlags 2 (1 / 2) 0 =
        List.replicate ((⌈(1 / 2 : ℚ) * ((2 : ℕ) : ℚ)⌉).toNat) true ++
          List.replicate (2 - (⌈(1 / 2 : ℚ) * ((2 : ℕ) : ℚ)⌉).toNat) false :=
  ⟨by decide, by norm_num, c7_read_write_split 2 (1 / 2) (by decide) (by norm_num) 0⟩

/-- C7 counterexample: at quota 2 and read fraction 3/5 the worker performs
2 reads and no write, while the claim prescribes floor(3/5 * 2) = 1 read
followed by 1 write. -/
theorem c7_counterexample :
    workerReadFlags 2 (3 / 5) 0 = [true, true] ∧ ⌊(3 / 5 : ℚ) * ((2 : ℕ) : ℚ)⌋ = 1 := by
  constructor
  · simp [workerReadFlags, workerOps, List.range_succ, Op.isRead]
    norm_num
  · rw [Int.floor_eq_iff]
    norm_num
